/-
Verification of the core value types of an HTTP type library
(`HeaderValue`, `Method`, `StatusCode`, `ByteStr`), shallowly embedded
from the Rust sources.  Bytes are modelled as `Nat` (with explicit
`% 256` where `u8` wraparound matters), byte buffers as `List Nat`,
fallible constructors as `Option`.
-/
import Mathlib

set_option maxRecDepth 10000

namespace Http

/-! ## HeaderValue (src/header/value.rs) -/

/-- Rust `is_visible_ascii` from value.rs: `b >= 32 && b < 127 || b == 9` (tab). -/
def is_visible_ascii (b : Nat) : Bool :=
  (32 ≤ b && b < 127) || b == 9

/-- Rust `is_valid` from value.rs: `b >= 32 && b != 127 || b == 9` (tab). -/
def is_valid (b : Nat) : Bool :=
  (32 ≤ b && b != 127) || b == 9

/-- Rust `HeaderValue`: a byte buffer (`Bytes inner`) plus the sensitivity flag. -/
structure HeaderValue where
  inner : List Nat
  is_sensitive : Bool
deriving DecidableEq, Repr

namespace HeaderValue

/-- Rust `HeaderValue::from_static`: scans the bytes of the literal with
`is_visible_ascii`; an offending byte triggers the deliberate
constant-evaluation fault (modelled as `none`); otherwise the bytes of the literal
are reused and the flag starts out `false`. -/
def from_static (src : List Nat) : Option HeaderValue :=
  if src.all (fun b => is_visible_ascii b) then
    some { inner := src, is_sensitive := false }
  else
    none

/-- Rust `HeaderValue::try_from_generic`: scans the bytes with `is_valid`,
failing with `InvalidHeaderValue` (modelled as `none`) on an invalid
byte; otherwise wraps the bytes with the flag `false`. -/
def try_from_generic (src : List Nat) : Option HeaderValue :=
  if src.all (fun b => is_valid b) then
    some { inner := src, is_sensitive := false }
  else
    none

/-- Rust `HeaderValue::from_bytes`, delegating to `try_from_generic`. -/
def from_bytes (src : List Nat) : Option HeaderValue :=
  try_from_generic src

/-- Rust `HeaderValue::from_str`, delegating to `try_from_generic` on the
bytes of the string. -/
def from_str (src : List Nat) : Option HeaderValue :=
  try_from_generic src

/-- Rust `HeaderValue::from_shared` (also the non-copying arm of
`from_maybe_shared`), delegating to `try_from_generic`. -/
def from_shared (src : List Nat) : Option HeaderValue :=
  try_from_generic src

/-- Rust `HeaderValue::to_str`: yields the byte content as text only when
every byte is `is_visible_ascii`; otherwise fails with `ToStrError`
(modelled as `none`). -/
def to_str (v : HeaderValue) : Option (List Nat) :=
  if v.inner.all (fun b => is_visible_ascii b) then some v.inner else none

/-- Rust `HeaderValue::len`. -/
def len (v : HeaderValue) : Nat := v.inner.length

/-- Rust `HeaderValue::is_empty`. -/
def is_empty (v : HeaderValue) : Bool := v.len == 0

/-- Rust `HeaderValue::as_bytes`. -/
def as_bytes (v : HeaderValue) : List Nat := v.inner

/-- Rust `HeaderValue::set_sensitive`. -/
def set_sensitive (v : HeaderValue) (val : Bool) : HeaderValue :=
  { v with is_sensitive := val }

/-- Rust `PartialEq for HeaderValue`: `self.inner == other.inner`. -/
def beq (v w : HeaderValue) : Bool := v.inner == w.inner

/-- Lexicographic byte comparison, as `Ord for [u8]`. -/
def listCompare : List Nat → List Nat → Ordering
  | [], [] => .eq
  | [], _ :: _ => .lt
  | _ :: _, [] => .gt
  | a :: as_, b :: bs =>
    match compare a b with
    | .eq => listCompare as_ bs
    | o => o

/-- Rust `Ord for HeaderValue`: `self.inner.cmp(&other.inner)`. -/
def cmp (v w : HeaderValue) : Ordering := listCompare v.inner w.inner

/-- Rust `Hash for HeaderValue`: the hasher state is fed `self.inner` only;
`f` stands for the hasher applied to a byte buffer. -/
def hashWith (f : List Nat → Nat) (v : HeaderValue) : Nat := f v.inner

end HeaderValue

/-! ## Method (src/method.rs) -/

/-- Byte view of an ASCII string literal. -/
def strBytes (s : String) : List Nat := s.data.map Char.toNat

/-- Rust `METHOD_CHARS` from method.rs: the 256-entry table mapping each valid
`tchar` byte to itself and every other byte to the zero sentinel. -/
def METHOD_CHARS : List Nat := [
  --  0    1    2    3    4    5    6    7    8    9
      0,   0,   0,   0,   0,   0,   0,   0,   0,   0,  --   x
      0,   0,   0,   0,   0,   0,   0,   0,   0,   0,  --  1x
      0,   0,   0,   0,   0,   0,   0,   0,   0,   0,  --  2x
      0,   0,   0,  33,   0,  35,  36,  37,  38,  39,  --  3x
      0,   0,  42,  43,   0,  45,  46,   0,  48,  49,  --  4x
     50,  51,  52,  53,  54,  55,  56,  57,   0,   0,  --  5x
      0,   0,   0,   0,   0,  65,  66,  67,  68,  69,  --  6x
     70,  71,  72,  73,  74,  75,  76,  77,  78,  79,  --  7x
     80,  81,  82,  83,  84,  85,  86,  87,  88,  89,  --  8x
     90,   0,   0,   0,  94,  95,  96,  97,  98,  99,  --  9x
    100, 101, 102, 103, 104, 105, 106, 107, 108, 109,  -- 10x
    110, 111, 112, 113, 114, 115, 116, 117, 118, 119,  -- 11x
    120, 121, 122,   0, 124,   0, 126,   0,   0,   0,  -- 12x
      0,   0,   0,   0,   0,   0,   0,   0,   0,   0,  -- 13x
      0,   0,   0,   0,   0,   0,   0,   0,   0,   0,  -- 14x
      0,   0,   0,   0,   0,   0,   0,   0,   0,   0,  -- 15x
      0,   0,   0,   0,   0,   0,   0,   0,   0,   0,  -- 16x
      0,   0,   0,   0,   0,   0,   0,   0,   0,   0,  -- 17x
      0,   0,   0,   0,   0,   0,   0,   0,   0,   0,  -- 18x
      0,   0,   0,   0,   0,   0,   0,   0,   0,   0,  -- 19x
      0,   0,   0,   0,   0,   0,   0,   0,   0,   0,  -- 20x
      0,   0,   0,   0,   0,   0,   0,   0,   0,   0,  -- 21x
      0,   0,   0,   0,   0,   0,   0,   0,   0,   0,  -- 22x
      0,   0,   0,   0,   0,   0,   0,   0,   0,   0,  -- 23x
      0,   0,   0,   0,   0,   0,   0,   0,   0,   0,  -- 24x
      0,   0,   0,   0,   0,   0]                      -- 25x

/-- Rust `write_checked` from method.rs: maps each source byte through
`METHOD_CHARS`, failing with `InvalidMethod` (modelled as `none`) on a
zero sentinel; on success the written prefix equals the mapped bytes. -/
def write_checked : List Nat → Option (List Nat)
  | [] => some []
  | b :: rest =>
    if METHOD_CHARS.getD b 0 = 0 then none
    else
      match write_checked rest with
      | none => none
      | some w => some (METHOD_CHARS.getD b 0 :: w)

/-- Rust `InlineExtension::MAX`. -/
def InlineExtension.MAX : Nat := 15

/-- Rust `InlineExtension::new`: writes the checked bytes at the front of a
`MAX`-byte zero-initialised array, keeping the explicit length. -/
def InlineExtension.new (src : List Nat) : Option (List Nat × Nat) :=
  match write_checked src with
  | none => none
  | some w => some (w ++ List.replicate (InlineExtension.MAX - src.length) 0, src.length)

/-- Rust `AllocatedExtension::new`: the buffer is sized exactly to the input. -/
def AllocatedExtension.new (src : List Nat) : Option (List Nat) :=
  write_checked src

/-- Rust `Inner` from method.rs: the nine standard verbs plus the two
extension representations. -/
inductive Inner where
  | Options | Get | Post | Put | Delete | Head | Trace | Connect | Patch
  | ExtensionInline (data : List Nat) (len : Nat)
  | ExtensionAllocated (data : List Nat)
deriving DecidableEq, Repr

/-- Rust `Method(Inner)`. -/
structure Method where
  inner : Inner
deriving DecidableEq, Repr

namespace Method

/-- Rust `Method::extension_inline`. -/
def extension_inline (src : List Nat) : Option Method :=
  match InlineExtension.new src with
  | none => none
  | some (data, len) => some ⟨.ExtensionInline data len⟩

/-- Rust `Method::from_bytes`: dispatch on length, then exact match against
the standard verbs, falling through to extension validation. -/
def from_bytes (src : List Nat) : Option Method :=
  match src.length with
  | 0 => none
  | 3 =>
    if src = strBytes "GET" then some ⟨.Get⟩
    else if src = strBytes "PUT" then some ⟨.Put⟩
    else extension_inline src
  | 4 =>
    if src = strBytes "POST" then some ⟨.Post⟩
    else if src = strBytes "HEAD" then some ⟨.Head⟩
    else extension_inline src
  | 5 =>
    if src = strBytes "PATCH" then some ⟨.Patch⟩
    else if src = strBytes "TRACE" then some ⟨.Trace⟩
    else extension_inline src
  | 6 =>
    if src = strBytes "DELETE" then some ⟨.Delete⟩
    else extension_inline src
  | 7 =>
    if src = strBytes "OPTIONS" then some ⟨.Options⟩
    else if src = strBytes "CONNECT" then some ⟨.Connect⟩
    else extension_inline src
  | _ =>
    if src.length ≤ InlineExtension.MAX then extension_inline src
    else
      match AllocatedExtension.new src with
      | none => none
      | some data => some ⟨.ExtensionAllocated data⟩

/-- Rust `Method::as_str` (byte view): the fixed text of a standard verb, or
the stored extension bytes. -/
def as_str (m : Method) : List Nat :=
  match m.inner with
  | .Options => strBytes "OPTIONS"
  | .Get => strBytes "GET"
  | .Post => strBytes "POST"
  | .Put => strBytes "PUT"
  | .Delete => strBytes "DELETE"
  | .Head => strBytes "HEAD"
  | .Trace => strBytes "TRACE"
  | .Connect => strBytes "CONNECT"
  | .Patch => strBytes "PATCH"
  | .ExtensionInline data len => data.take len
  | .ExtensionAllocated data => data

/-- Rust `Method::is_safe`. -/
def is_safe (m : Method) : Bool :=
  match m.inner with
  | .Get | .Head | .Options | .Trace => true
  | _ => false

/-- Rust `Method::is_idempotent`. -/
def is_idempotent (m : Method) : Bool :=
  match m.inner with
  | .Put | .Delete => true
  | _ => m.is_safe

end Method

/-- The `tchar` alphabet of RFC 9110 §9.1: letters, digits, and the
punctuation bytes 33 35 36 37 38 39 42 43 45 46 94 95 96 124 126
(that is, bang hash dollar percent ampersand quote star plus minus dot
caret underscore backquote bar tilde). -/
def isTchar (b : Nat) : Bool :=
  (65 ≤ b && b ≤ 90) || (97 ≤ b && b ≤ 122) || (48 ≤ b && b ≤ 57) ||
  [33, 35, 36, 37, 38, 39, 42, 43, 45, 46, 94, 95, 96, 124, 126].contains b

/-! ## StatusCode (src/status.rs) -/

/-- Rust `StatusCode(NonZeroU16)`: `val` is the wrapped `NonZeroU16` payload. -/
structure StatusCode where
  val : Nat
deriving DecidableEq, Repr

namespace StatusCode

/-- Rust `NonZeroU16::new`: `some` exactly on a nonzero value. -/
def nonZeroU16_new (n : Nat) : Option Nat :=
  if n = 0 then none else some n

/-- Rust `StatusCode::from_u16`: rejects values outside `100..1000`, then
wraps through `NonZeroU16::new`. -/
def from_u16 (src : Nat) : Option StatusCode :=
  if ¬ (100 ≤ src ∧ src < 1000) then none
  else (nonZeroU16_new src).map StatusCode.mk

/-- Rust `StatusCode::from_bytes`: exactly 3 bytes; each digit is obtained by
`wrapping_sub(b, 48)` on a `u8` (modelled as `(b + 208) % 256`); rejects
a zero or out-of-range hundreds digit and out-of-range tens/units
digits; the value is assembled by direct digit arithmetic. -/
def from_bytes (src : List Nat) : Option StatusCode :=
  if src.length ≠ 3 then none
  else
    let a := (src.getD 0 0 + 208) % 256
    let b := (src.getD 1 0 + 208) % 256
    let c := (src.getD 2 0 + 208) % 256
    if a = 0 ∨ a > 9 ∨ b > 9 ∨ c > 9 then none
    else
      let status := a * 100 + b * 10 + c
      (nonZeroU16_new status).map StatusCode.mk

/-- Rust `StatusCode::as_u16`. -/
def as_u16 (s : StatusCode) : Nat := s.val

/-- Rust `StatusCode::OK`. -/
def OK : StatusCode := ⟨200⟩

end StatusCode

/-! `CODE_DIGITS` from status.rs: the packed 3-ASCII-digit strings for
every code in `[100, 999]` (900 codes, 2700 bytes), written here as the
concatenation of nine 100-code slices. -/

/-- Codes 100–199 of the `CODE_DIGITS` table. -/
def CODE_DIGITS_0 : String :=
  "100101102103104105106107108109110111112113114115116117118119" ++
  "120121122123124125126127128129130131132133134135136137138139" ++
  "140141142143144145146147148149150151152153154155156157158159" ++
  "160161162163164165166167168169170171172173174175176177178179" ++
  "180181182183184185186187188189190191192193194195196197198199"

/-- Codes 200–299 of the `CODE_DIGITS` table. -/
def CODE_DIGITS_1 : String :=
  "200201202203204205206207208209210211212213214215216217218219" ++
  "220221222223224225226227228229230231232233234235236237238239" ++
  "240241242243244245246247248249250251252253254255256257258259" ++
  "260261262263264265266267268269270271272273274275276277278279" ++
  "280281282283284285286287288289290291292293294295296297298299"

/-- Codes 300–399 of the `CODE_DIGITS` table. -/
def CODE_DIGITS_2 : String :=
  "300301302303304305306307308309310311312313314315316317318319" ++
  "320321322323324325326327328329330331332333334335336337338339" ++
  "340341342343344345346347348349350351352353354355356357358359" ++
  "360361362363364365366367368369370371372373374375376377378379" ++
  "380381382383384385386387388389390391392393394395396397398399"

/-- Codes 400–499 of the `CODE_DIGITS` table. -/
def CODE_DIGITS_3 : String :=
  "400401402403404405406407408409410411412413414415416417418419" ++
  "420421422423424425426427428429430431432433434435436437438439" ++
  "440441442443444445446447448449450451452453454455456457458459" ++
  "460461462463464465466467468469470471472473474475476477478479" ++
  "480481482483484485486487488489490491492493494495496497498499"

/-- Codes 500–599 of the `CODE_DIGITS` table. -/
def CODE_DIGITS_4 : String :=
  "500501502503504505506507508509510511512513514515516517518519" ++
  "520521522523524525526527528529530531532533534535536537538539" ++
  "540541542543544545546547548549550551552553554555556557558559" ++
  "560561562563564565566567568569570571572573574575576577578579" ++
  "580581582583584585586587588589590591592593594595596597598599"

/-- Codes 600–699 of the `CODE_DIGITS` table. -/
def CODE_DIGITS_5 : String :=
  "600601602603604605606607608609610611612613614615616617618619" ++
  "620621622623624625626627628629630631632633634635636637638639" ++
  "640641642643644645646647648649650651652653654655656657658659" ++
  "660661662663664665666667668669670671672673674675676677678679" ++
  "680681682683684685686687688689690691692693694695696697698699"

/-- Codes 700–799 of the `CODE_DIGITS` table. -/
def CODE_DIGITS_6 : String :=
  "700701702703704705706707708709710711712713714715716717718719" ++
  "720721722723724725726727728729730731732733734735736737738739" ++
  "740741742743744745746747748749750751752753754755756757758759" ++
  "760761762763764765766767768769770771772773774775776777778779" ++
  "780781782783784785786787788789790791792793794795796797798799"

/-- Codes 800–899 of the `CODE_DIGITS` table. -/
def CODE_DIGITS_7 : String :=
  "800801802803804805806807808809810811812813814815816817818819" ++
  "820821822823824825826827828829830831832833834835836837838839" ++
  "840841842843844845846847848849850851852853854855856857858859" ++
  "860861862863864865866867868869870871872873874875876877878879" ++
  "880881882883884885886887888889890891892893894895896897898899"

/-- Codes 900–999 of the `CODE_DIGITS` table. -/
def CODE_DIGITS_8 : String :=
  "900901902903904905906907908909910911912913914915916917918919" ++
  "920921922923924925926927928929930931932933934935936937938939" ++
  "940941942943944945946947948949950951952953954955956957958959" ++
  "960961962963964965966967968969970971972973974975976977978979" ++
  "980981982983984985986987988989990991992993994995996997998999"

def CODE_DIGITS : String :=
  CODE_DIGITS_0 ++ CODE_DIGITS_1 ++ CODE_DIGITS_2 ++ CODE_DIGITS_3 ++ CODE_DIGITS_4 ++
  CODE_DIGITS_5 ++ CODE_DIGITS_6 ++ CODE_DIGITS_7 ++ CODE_DIGITS_8

/-- Rust `StatusCode::as_str`: the 3-character slice of `CODE_DIGITS` at
offset `(val - 100) * 3`. -/
def StatusCode.as_str (s : StatusCode) : List Char :=
  (CODE_DIGITS.data.drop ((s.val - 100) * 3)).take 3

/-! ## ByteStr (src/byte_str.rs) -/

/-- A UTF-8 continuation byte: `0x80..=0xBF`. -/
def isCont (b : Nat) : Bool := 128 ≤ b && b ≤ 191

/-- UTF-8 validity of a byte sequence, as checked by
`str::from_utf8` (RFC 3629: no overlong forms, no surrogates, no code
points above U+10FFFF). -/
def utf8Valid : List Nat → Bool
  | [] => true
  | a :: rest =>
    if a < 128 then utf8Valid rest
    else if 194 ≤ a && a ≤ 223 then
      match rest with
      | b :: r => isCont b && utf8Valid r
      | [] => false
    else if a = 224 then
      match rest with
      | b :: c :: r => (160 ≤ b && b ≤ 191) && isCont c && utf8Valid r
      | _ => false
    else if 225 ≤ a && a ≤ 236 then
      match rest with
      | b :: c :: r => isCont b && isCont c && utf8Valid r
      | _ => false
    else if a = 237 then
      match rest with
      | b :: c :: r => (128 ≤ b && b ≤ 159) && isCont c && utf8Valid r
      | _ => false
    else if 238 ≤ a && a ≤ 239 then
      match rest with
      | b :: c :: r => isCont b && isCont c && utf8Valid r
      | _ => false
    else if a = 240 then
      match rest with
      | b :: c :: d :: r => (144 ≤ b && b ≤ 191) && isCont c && isCont d && utf8Valid r
      | _ => false
    else if 241 ≤ a && a ≤ 243 then
      match rest with
      | b :: c :: d :: r => isCont b && isCont c && isCont d && utf8Valid r
      | _ => false
    else if a = 244 then
      match rest with
      | b :: c :: d :: r => (128 ≤ b && b ≤ 143) && isCont c && isCont d && utf8Valid r
      | _ => false
    else false

/-- Rust `ByteStr`: a shared byte buffer whose invariant is UTF-8 validity. -/
structure ByteStr where
  bytes : List Nat
deriving DecidableEq, Repr

namespace ByteStr

/-- Rust `ByteStr::new`: the empty buffer. -/
def new : ByteStr := ⟨[]⟩

/-- Rust `ByteStr::from_static`: wraps the bytes of a static `str`. -/
def from_static (val : List Nat) : ByteStr := ⟨val⟩

/-- Rust `ByteStr::from_utf8`: validates with `str::from_utf8` and wraps. -/
def from_utf8 (bytes : List Nat) : Option ByteStr :=
  if utf8Valid bytes then some ⟨bytes⟩ else none

/-- Rust `From<String> for ByteStr`: wraps the bytes of the owned string. -/
def fromString (src : List Nat) : ByteStr := ⟨src⟩

/-- Rust `From<&str> for ByteStr`: copies the bytes of the borrowed string. -/
def fromStrRef (src : List Nat) : ByteStr := ⟨src⟩

/-- Rust `Deref for ByteStr`: the string view over the buffer. -/
def deref (b : ByteStr) : List Nat := b.bytes

/-- The `ByteStr` values reachable through the public constructors; the
string-typed sources (`from_static`, `From<String>`, `From<&str>`) carry
the `str` guarantee that their bytes are valid UTF-8. -/
inductive Reachable : ByteStr → Prop
  | new : Reachable ByteStr.new
  | from_static (s : List Nat) (h : utf8Valid s = true) :
      Reachable (ByteStr.from_static s)
  | from_utf8 (src : List Nat) (b : ByteStr) (h : ByteStr.from_utf8 src = some b) :
      Reachable b
  | fromString (s : List Nat) (h : utf8Valid s = true) :
      Reachable (ByteStr.fromString s)
  | fromStrRef (s : List Nat) (h : utf8Valid s = true) :
      Reachable (ByteStr.fromStrRef s)

end ByteStr

/-! ## HeaderName (external collaborator) and the remaining
`HeaderValue` constructors -/

/-- Modelled from the spec: the header-name type lives outside this
core (src/header/name.rs is not part of the verified sources); the spec
only requires that a name exposes its byte content
(`HeaderName::into_bytes`) and that the header-name character set is a
subset of the header-value character set. -/
structure HeaderName where
  bytes : List Nat
deriving DecidableEq, Repr

/-- Rust `HeaderName::into_bytes`. -/
def HeaderName.into_bytes (h : HeaderName) : List Nat := h.bytes

namespace HeaderValue

/-- Rust `From<HeaderName> for HeaderValue` (and therefore
`HeaderValue::from_name`): wraps the bytes of the name, flag `false`. -/
def from_name (h : HeaderName) : HeaderValue :=
  { inner := h.into_bytes, is_sensitive := false }

/-- Decimal ASCII digits of a natural number, as `itoa` renders it. -/
def decimalBytes (n : Nat) : List Nat :=
  (Nat.toDigits 10 n).map Char.toNat

/-- Rust `From<u64> for HeaderValue` (likewise `u16`/`u32`): formats the
integer in decimal, flag `false`. -/
def from_u64 (num : Nat) : HeaderValue :=
  { inner := decimalBytes num, is_sensitive := false }

/-- Rust `From<i64> for HeaderValue` (likewise `i16`/`i32`): formats the
integer in decimal with a leading minus sign when negative, flag
`false`. -/
def from_i64 (num : Int) : HeaderValue :=
  { inner := if num < 0 then 45 :: decimalBytes num.natAbs else decimalBytes num.natAbs,
    is_sensitive := false }

end HeaderValue

/-! ## Specification-side helpers -/

/-- The ASCII digit character for `d < 10`. -/
def digitChar (d : Nat) : Char := Char.ofNat (48 + d)

/-- The 3-digit decimal rendering of `n` (for `n ≤ 999`). -/
def digits3 (n : Nat) : List Char :=
  [digitChar (n / 100), digitChar (n / 10 % 10), digitChar (n % 10)]

/-- The concatenation of the 3-digit renderings of `count` consecutive
numbers starting at `start`; the generator the digit table must match. -/
def genFrom : Nat → Nat → List Char
  | _, 0 => []
  | start, count + 1 => digits3 start ++ genFrom (start + 1) count

/-! ## Shared lemmas -/

/-- Rust `listCompare` is reflexively `eq`. -/
theorem listCompare_self (l : List Nat) : HeaderValue.listCompare l l = Ordering.eq := by
  induction l with
  | nil => rfl
  | cons a as_ ih =>
    have hc : compare a a = Ordering.eq := by simp [Nat.compare_eq_eq]
    simp [HeaderValue.listCompare, hc, ih]

/-- A successful `try_from_generic` yields the flag `false`. -/
theorem try_from_generic_not_sensitive (src : List Nat) (hv : HeaderValue)
    (h : HeaderValue.try_from_generic src = some hv) : hv.is_sensitive = false := by
  unfold HeaderValue.try_from_generic at h
  split at h
  · injection h with h
    subst h
    rfl
  · exact Option.noConfusion h

/-- A successful `try_from_generic` returns exactly the scanned bytes,
all of which are `is_valid`. -/
theorem try_from_generic_eq (src : List Nat) (hv : HeaderValue)
    (h : HeaderValue.try_from_generic src = some hv) :
    hv = ⟨src, false⟩ ∧ ∀ b ∈ src, is_valid b = true := by
  unfold HeaderValue.try_from_generic at h
  split at h
  next hall =>
    refine ⟨?_, List.all_eq_true.mp hall⟩
    injection h with h
    exact h.symm
  next => exact Option.noConfusion h

/-- Rust `to_str` fails as soon as one byte is not visible ASCII. -/
theorem to_str_eq_none_of_mem (v : HeaderValue) (b : Nat) (hb : b ∈ v.inner)
    (hf : is_visible_ascii b = false) : HeaderValue.to_str v = none := by
  unfold HeaderValue.to_str
  split
  next hall => exact absurd (List.all_eq_true.mp hall b hb) (by simp [hf])
  next => rfl

/-- The validation table has 256 entries. -/
theorem method_chars_length : METHOD_CHARS.length = 256 := by decide

/-- Within the byte range, every table entry is the zero sentinel or the
byte itself. -/
theorem method_chars_id_small :
    ∀ b : Nat, b < 256 → (METHOD_CHARS.getD b 0 = 0 ∨ METHOD_CHARS.getD b 0 = b) := by
  decide

/-- Within the byte range, the nonzero table entries are exactly the
`tchar` bytes. -/
theorem method_chars_tchar_small :
    ∀ b : Nat, b < 256 → (METHOD_CHARS.getD b 0 ≠ 0 ↔ isTchar b = true) := by
  decide

/-- Every `tchar` byte fits in the byte range. -/
theorem isTchar_lt (b : Nat) (h : isTchar b = true) : b < 256 := by
  simp only [isTchar, Bool.or_eq_true, Bool.and_eq_true, decide_eq_true_eq,
    List.contains, List.elem_eq_mem, List.mem_cons, List.not_mem_nil, or_false] at h
  omega

/-- The nonzero table entries are exactly the `tchar` bytes. -/
theorem method_chars_nonzero_iff (b : Nat) :
    METHOD_CHARS.getD b 0 ≠ 0 ↔ isTchar b = true := by
  by_cases hb : b < 256
  · exact method_chars_tchar_small b hb
  · constructor
    · intro h
      exfalso
      apply h
      apply List.getD_eq_default
      rw [method_chars_length]
      omega
    · intro h
      exact absurd (isTchar_lt b h) hb

/-- A nonzero table entry is the byte itself. -/
theorem method_chars_id (b : Nat) (h : METHOD_CHARS.getD b 0 ≠ 0) :
    METHOD_CHARS.getD b 0 = b := by
  have hb : b < 256 := isTchar_lt b ((method_chars_nonzero_iff b).mp h)
  rcases method_chars_id_small b hb with h0 | h1
  · exact absurd h0 h
  · exact h1

/-- Rust `write_checked` copies its input: the mapped bytes are the source
bytes, because valid entries map to themselves. -/
theorem write_checked_eq (src : List Nat) :
    ∀ w, write_checked src = some w → w = src := by
  induction src with
  | nil =>
    intro w h
    unfold write_checked at h
    injection h with h
    exact h.symm
  | cons b rest ih =>
    intro w h
    unfold write_checked at h
    split at h
    next => exact Option.noConfusion h
    next hm =>
      split at h
      next => exact Option.noConfusion h
      next w2 hw2 =>
        injection h with h
        subst h
        rw [ih w2 hw2, method_chars_id b hm]

/-- Rust `write_checked` succeeds exactly when every byte is a `tchar`. -/
theorem write_checked_some_iff (src : List Nat) :
    (∃ w, write_checked src = some w) ↔ ∀ b ∈ src, isTchar b = true := by
  induction src with
  | nil => simp [write_checked]
  | cons b rest ih =>
    unfold write_checked
    split
    next h0 =>
      constructor
      · rintro ⟨w, hw⟩
        exact Option.noConfusion hw
      · intro hall
        have := (method_chars_nonzero_iff b).mpr (hall b (List.mem_cons_self b rest))
        exact absurd h0 this
    next h0 =>
      cases hw : write_checked rest with
      | none =>
        constructor
        · rintro ⟨w, hcontra⟩
          exact Option.noConfusion hcontra
        · intro hall
          have hrest : ∀ b2 ∈ rest, isTchar b2 = true :=
            fun b2 hb2 => hall b2 (List.mem_cons_of_mem b hb2)
          rcases ih.mpr hrest with ⟨w, hw2⟩
          rw [hw] at hw2
          exact Option.noConfusion hw2
      | some w =>
        constructor
        · intro _
          intro b2 hb2
          rcases List.mem_cons.mp hb2 with rfl | hmem
          · exact (method_chars_nonzero_iff b2).mp h0
          · exact ih.mp ⟨w, hw⟩ b2 hmem
        · intro _
          exact ⟨_, rfl⟩

/-- A successful `extension_inline` stores exactly the source bytes
behind its text view. -/
theorem extension_inline_as_str (src : List Nat) (m : Method)
    (h : Method.extension_inline src = some m) : m.as_str = src := by
  unfold Method.extension_inline InlineExtension.new at h
  cases hw : write_checked src with
  | none =>
    rw [hw] at h
    exact Option.noConfusion h
  | some w =>
    rw [hw] at h
    simp only at h
    injection h with h
    subst h
    have hws : w = src := write_checked_eq src w hw
    subst hws
    show (w ++ List.replicate (InlineExtension.MAX - w.length) 0).take w.length = w
    exact List.take_left w _

/-- Rust `extension_inline` succeeds exactly when `write_checked` does. -/
theorem extension_inline_some_iff (src : List Nat) :
    (∃ m, Method.extension_inline src = some m) ↔ ∃ w, write_checked src = some w := by
  unfold Method.extension_inline InlineExtension.new
  cases hw : write_checked src with
  | none =>
    constructor
    · rintro ⟨m, hm⟩
      exact Option.noConfusion hm
    · rintro ⟨w, hcontra⟩
      exact Option.noConfusion hcontra
  | some w =>
    constructor
    · intro _
      exact ⟨w, rfl⟩
    · intro _
      exact ⟨_, rfl⟩

/-- Rust `extension_inline` success criterion, for nonempty input. -/
theorem extension_inline_arm_iff (t : List Nat) (hne : t ≠ []) :
    (∃ m, Method.extension_inline t = some m) ↔
    (t ≠ [] ∧ ∀ b ∈ t, isTchar b = true) := by
  rw [extension_inline_some_iff, write_checked_some_iff]
  exact (and_iff_right hne).symm

/-- Rust `Method::from_bytes` succeeds exactly on a nonempty all-`tchar`
input. -/
theorem from_bytes_some_iff (t : List Nat) :
    (∃ m, Method.from_bytes t = some m) ↔
    (t ≠ [] ∧ ∀ b ∈ t, isTchar b = true) := by
  have hlen_ne : ∀ n : Nat, t.length = n → n ≠ 0 → t ≠ [] := by
    intro n hn hnz hnil
    subst hnil
    simp at hn
    omega
  unfold Method.from_bytes
  split
  next heq =>
    have ht : t = [] := List.length_eq_zero.mp heq
    subst ht
    simp
  next heq =>
    split_ifs with h1 h2
    · subst h1
      simp only [ne_eq]
      exact ⟨fun _ => by decide, fun _ => ⟨_, rfl⟩⟩
    · subst h2
      simp only [ne_eq]
      exact ⟨fun _ => by decide, fun _ => ⟨_, rfl⟩⟩
    · exact extension_inline_arm_iff t (hlen_ne 3 heq (by omega))
  next heq =>
    split_ifs with h1 h2
    · subst h1
      simp only [ne_eq]
      exact ⟨fun _ => by decide, fun _ => ⟨_, rfl⟩⟩
    · subst h2
      simp only [ne_eq]
      exact ⟨fun _ => by decide, fun _ => ⟨_, rfl⟩⟩
    · exact extension_inline_arm_iff t (hlen_ne 4 heq (by omega))
  next heq =>
    split_ifs with h1 h2
    · subst h1
      simp only [ne_eq]
      exact ⟨fun _ => by decide, fun _ => ⟨_, rfl⟩⟩
    · subst h2
      simp only [ne_eq]
      exact ⟨fun _ => by decide, fun _ => ⟨_, rfl⟩⟩
    · exact extension_inline_arm_iff t (hlen_ne 5 heq (by omega))
  next heq =>
    split_ifs with h1
    · subst h1
      simp only [ne_eq]
      exact ⟨fun _ => by decide, fun _ => ⟨_, rfl⟩⟩
    · exact extension_inline_arm_iff t (hlen_ne 6 heq (by omega))
  next heq =>
    split_ifs with h1 h2
    · subst h1
      simp only [ne_eq]
      exact ⟨fun _ => by decide, fun _ => ⟨_, rfl⟩⟩
    · subst h2
      simp only [ne_eq]
      exact ⟨fun _ => by decide, fun _ => ⟨_, rfl⟩⟩
    · exact extension_inline_arm_iff t (hlen_ne 7 heq (by omega))
  next n h0 h3 h4 h5 h6 h7 =>
    have hne : t ≠ [] := by
      intro hnil
      subst hnil
      exact h0 rfl
    split_ifs with h1
    · exact extension_inline_arm_iff t hne
    · unfold AllocatedExtension.new
      cases hw : write_checked t with
      | none =>
        constructor
        · rintro ⟨m, hm⟩
          exact Option.noConfusion hm
        · rintro ⟨_, hall⟩
          rcases (write_checked_some_iff t).mpr hall with ⟨w, hw2⟩
          rw [hw] at hw2
          exact Option.noConfusion hw2
      | some w =>
        constructor
        · intro _
          exact ⟨hne, (write_checked_some_iff t).mp ⟨w, hw⟩⟩
        · intro _
          exact ⟨_, rfl⟩

/-- Characterization of `StatusCode::from_bytes` on a 3-byte input:
it succeeds exactly on three ASCII digits with a nonzero hundreds
digit, and the value is the decimal number they denote. -/
theorem status_from_bytes_cons (x y z : Nat) (hx : x < 256) (hy : y < 256) (hz : z < 256) :
    StatusCode.from_bytes [x, y, z] =
      if 49 ≤ x ∧ x ≤ 57 ∧ 48 ≤ y ∧ y ≤ 57 ∧ 48 ≤ z ∧ z ≤ 57 then
        some ⟨(x - 48) * 100 + (y - 48) * 10 + (z - 48)⟩
      else none := by
  simp only [StatusCode.from_bytes, List.getD_cons_zero, List.getD_cons_succ,
    List.length_cons, List.length_nil]
  rw [if_neg (by omega)]
  split_ifs with h1 h2
  · exact absurd h1 (by omega)
  · rfl
  · unfold StatusCode.nonZeroU16_new
    rw [if_neg (by omega)]
    have ha : (x + 208) % 256 = x - 48 := by omega
    have hb : (y + 208) % 256 = y - 48 := by omega
    have hc : (z + 208) % 256 = z - 48 := by omega
    rw [ha, hb, hc]
    rfl
  · exact absurd (by omega : (x + 208) % 256 = 0 ∨ 9 < (x + 208) % 256 ∨
      9 < (y + 208) % 256 ∨ 9 < (z + 208) % 256) h1

/-- Rust `StatusCode::from_bytes` rejects any input whose length is not 3. -/
theorem status_from_bytes_len_ne (src : List Nat) (h : src.length ≠ 3) :
    StatusCode.from_bytes src = none := by
  unfold StatusCode.from_bytes
  rw [if_pos h]

/-- Rust `genFrom` splits over an addition of counts. -/
theorem genFrom_add (m n : Nat) :
    ∀ start, genFrom start (m + n) = genFrom start m ++ genFrom (start + m) n := by
  induction m with
  | zero =>
    intro start
    simp [genFrom]
  | succ k ih =>
    intro start
    have hcnt : k + 1 + n = (k + n) + 1 := by omega
    rw [hcnt]
    show digits3 start ++ genFrom (start + 1) (k + n) =
      (digits3 start ++ genFrom (start + 1) k) ++ genFrom (start + (k + 1)) n
    rw [ih (start + 1), List.append_assoc]
    have harg : start + 1 + k = start + (k + 1) := by omega
    rw [harg]

/-- Rust `genFrom` produces 3 characters per code. -/
theorem genFrom_length (count : Nat) :
    ∀ start, (genFrom start count).length = count * 3 := by
  induction count with
  | zero => intro _; rfl
  | succ n ih =>
    intro start
    show (digits3 start ++ genFrom (start + 1) n).length = (n + 1) * 3
    rw [List.length_append, ih (start + 1)]
    show 3 + n * 3 = (n + 1) * 3
    omega

/-- Dropping `k` codes from `genFrom` and taking one code yields the
3-digit rendering of the `k`-th number. -/
theorem genFrom_drop_take (count : Nat) :
    ∀ start k, k < count →
      ((genFrom start count).drop (k * 3)).take 3 = digits3 (start + k) := by
  induction count with
  | zero =>
    intro start k h
    exact absurd h (Nat.not_lt_zero k)
  | succ n ih =>
    intro start k h
    cases k with
    | zero =>
      show ((digits3 start ++ genFrom (start + 1) n).drop 0).take 3 = digits3 (start + 0)
      have h3 : (digits3 start).length = 3 := rfl
      rw [List.drop_zero, ← h3, List.take_left]
      congr 1
    | succ k2 =>
      show ((digits3 start ++ genFrom (start + 1) n).drop ((k2 + 1) * 3)).take 3 =
        digits3 (start + (k2 + 1))
      have hsplit : (k2 + 1) * 3 = (digits3 start).length + k2 * 3 := by
        show (k2 + 1) * 3 = 3 + k2 * 3
        omega
      rw [hsplit, List.drop_append, ih (start + 1) k2 (by omega)]
      have harg : start + 1 + k2 = start + (k2 + 1) := by omega
      rw [harg]

/-- The first table slice renders codes 100–199. -/
theorem code_digits_0_data : CODE_DIGITS_0.data = genFrom 100 100 := by decide

/-- The second table slice renders codes 200–299. -/
theorem code_digits_1_data : CODE_DIGITS_1.data = genFrom 200 100 := by decide

/-- The third table slice renders codes 300–399. -/
theorem code_digits_2_data : CODE_DIGITS_2.data = genFrom 300 100 := by decide

/-- The fourth table slice renders codes 400–499. -/
theorem code_digits_3_data : CODE_DIGITS_3.data = genFrom 400 100 := by decide

/-- The fifth table slice renders codes 500–599. -/
theorem code_digits_4_data : CODE_DIGITS_4.data = genFrom 500 100 := by decide

/-- The sixth table slice renders codes 600–699. -/
theorem code_digits_5_data : CODE_DIGITS_5.data = genFrom 600 100 := by decide

/-- The seventh table slice renders codes 700–799. -/
theorem code_digits_6_data : CODE_DIGITS_6.data = genFrom 700 100 := by decide

/-- The eighth table slice renders codes 800–899. -/
theorem code_digits_7_data : CODE_DIGITS_7.data = genFrom 800 100 := by decide

/-- The ninth table slice renders codes 900–999. -/
theorem code_digits_8_data : CODE_DIGITS_8.data = genFrom 900 100 := by decide

/-- The whole digit table is the generated rendering of 100–999. -/
theorem code_digits_data : CODE_DIGITS.data = genFrom 100 900 := by
  have e1 : genFrom 100 900 = genFrom 100 100 ++ genFrom 200 800 := by
    have h := genFrom_add 100 800 100
    norm_num at h
    exact h
  have e2 : genFrom 200 800 = genFrom 200 100 ++ genFrom 300 700 := by
    have h := genFrom_add 100 700 200
    norm_num at h
    exact h
  have e3 : genFrom 300 700 = genFrom 300 100 ++ genFrom 400 600 := by
    have h := genFrom_add 100 600 300
    norm_num at h
    exact h
  have e4 : genFrom 400 600 = genFrom 400 100 ++ genFrom 500 500 := by
    have h := genFrom_add 100 500 400
    norm_num at h
    exact h
  have e5 : genFrom 500 500 = genFrom 500 100 ++ genFrom 600 400 := by
    have h := genFrom_add 100 400 500
    norm_num at h
    exact h
  have e6 : genFrom 600 400 = genFrom 600 100 ++ genFrom 700 300 := by
    have h := genFrom_add 100 300 600
    norm_num at h
    exact h
  have e7 : genFrom 700 300 = genFrom 700 100 ++ genFrom 800 200 := by
    have h := genFrom_add 100 200 700
    norm_num at h
    exact h
  have e8 : genFrom 800 200 = genFrom 800 100 ++ genFrom 900 100 := by
    have h := genFrom_add 100 100 800
    norm_num at h
    exact h
  rw [e1, e2, e3, e4, e5, e6, e7, e8]
  show (CODE_DIGITS_0 ++ CODE_DIGITS_1 ++ CODE_DIGITS_2 ++ CODE_DIGITS_3 ++ CODE_DIGITS_4 ++
    CODE_DIGITS_5 ++ CODE_DIGITS_6 ++ CODE_DIGITS_7 ++ CODE_DIGITS_8).data = _
  simp only [String.data_append, List.append_assoc]
  rw [code_digits_0_data, code_digits_1_data, code_digits_2_data, code_digits_3_data,
    code_digits_4_data, code_digits_5_data, code_digits_6_data, code_digits_7_data,
    code_digits_8_data]

/-- The digit table holds 2700 characters. -/
theorem code_digits_data_length : CODE_DIGITS.data.length = 2700 := by
  rw [code_digits_data, genFrom_length]

/-! ## Claims -/

/-- C10: `HeaderValue::from_bytes` accepts the empty byte sequence,
yielding a value with `len() == 0` and `is_empty() == true`, while
`Method::from_bytes` rejects empty input. -/
theorem c10_empty_value_accepted_empty_method_rejected :
    HeaderValue.from_bytes [] = some { inner := [], is_sensitive := false } ∧
    (HeaderValue.mk [] false).len = 0 ∧
    (HeaderValue.mk [] false).is_empty = true ∧
    Method.from_bytes [] = none := by
  decide

/-- C3: equality, ordering and hashing of `HeaderValue` are functions of
the byte content only: two values with identical bytes compare equal,
order as `eq` and hash alike regardless of their sensitivity flags, and
`set_sensitive` never changes how a value compares or hashes. -/
theorem c3_sensitivity_excluded_from_eq_ord_hash
    (v w : HeaderValue) (f : List Nat → Nat) (b : Bool)
    (h : v.inner = w.inner) :
    HeaderValue.beq v w = true ∧
    HeaderValue.cmp v w = Ordering.eq ∧
    HeaderValue.hashWith f v = HeaderValue.hashWith f w ∧
    HeaderValue.beq (v.set_sensitive b) w = HeaderValue.beq v w ∧
    HeaderValue.cmp (v.set_sensitive b) w = HeaderValue.cmp v w ∧
    HeaderValue.cmp v (w.set_sensitive b) = HeaderValue.cmp v w ∧
    HeaderValue.hashWith f (v.set_sensitive b) = HeaderValue.hashWith f v := by
  refine ⟨?_, ?_, ?_, rfl, rfl, rfl, rfl⟩
  · simp [HeaderValue.beq, h]
  · simp [HeaderValue.cmp, h, listCompare_self]
  · simp [HeaderValue.hashWith, h]

/-- C3 witness: two concrete values with the same bytes and opposite
flags compare, order and hash identically. -/
theorem c3_sensitivity_excluded_witness :
    HeaderValue.beq ⟨[109, 121], false⟩ ⟨[109, 121], true⟩ = true ∧
    HeaderValue.cmp ⟨[109, 121], false⟩ ⟨[109, 121], true⟩ = Ordering.eq ∧
    HeaderValue.hashWith List.length ⟨[109, 121], false⟩ =
      HeaderValue.hashWith List.length ⟨[109, 121], true⟩ ∧
    HeaderValue.beq ((HeaderValue.mk [109, 121] false).set_sensitive true) ⟨[109, 121], true⟩ =
      HeaderValue.beq ⟨[109, 121], false⟩ ⟨[109, 121], true⟩ ∧
    HeaderValue.cmp ((HeaderValue.mk [109, 121] false).set_sensitive true) ⟨[109, 121], true⟩ =
      HeaderValue.cmp ⟨[109, 121], false⟩ ⟨[109, 121], true⟩ ∧
    HeaderValue.cmp ⟨[109, 121], false⟩ ((HeaderValue.mk [109, 121] true).set_sensitive true) =
      HeaderValue.cmp ⟨[109, 121], false⟩ ⟨[109, 121], true⟩ ∧
    HeaderValue.hashWith List.length ((HeaderValue.mk [109, 121] false).set_sensitive true) =
      HeaderValue.hashWith List.length ⟨[109, 121], false⟩ :=
  c3_sensitivity_excluded_from_eq_ord_hash
    ⟨[109, 121], false⟩ ⟨[109, 121], true⟩ List.length true rfl

/-- C9: every `HeaderValue` constructor yields a value whose sensitivity
flag is `false`; the flag is changed only by an explicit
`set_sensitive` call. -/
theorem c9_constructors_not_sensitive :
    (∀ src hv, HeaderValue.from_static src = some hv → hv.is_sensitive = false) ∧
    (∀ src hv, HeaderValue.from_str src = some hv → hv.is_sensitive = false) ∧
    (∀ src hv, HeaderValue.from_bytes src = some hv → hv.is_sensitive = false) ∧
    (∀ src hv, HeaderValue.from_shared src = some hv → hv.is_sensitive = false) ∧
    (∀ n, (HeaderValue.from_name n).is_sensitive = false) ∧
    (∀ n, (HeaderValue.from_u64 n).is_sensitive = false) ∧
    (∀ i, (HeaderValue.from_i64 i).is_sensitive = false) ∧
    (∀ v b, (HeaderValue.set_sensitive v b).is_sensitive = b) := by
  refine ⟨?_, ?_, ?_, ?_, fun _ => rfl, fun _ => rfl, fun _ => rfl, fun _ _ => rfl⟩
  · intro src hv h
    unfold HeaderValue.from_static at h
    split at h
    · injection h with h
      subst h
      rfl
    · exact Option.noConfusion h
  · exact fun src hv h => try_from_generic_not_sensitive src hv h
  · exact fun src hv h => try_from_generic_not_sensitive src hv h
  · exact fun src hv h => try_from_generic_not_sensitive src hv h

/-- C9 witness: the constructors applied at concrete inputs. -/
theorem c9_constructors_not_sensitive_witness :
    HeaderValue.from_bytes [104, 105] = some ⟨[104, 105], false⟩ ∧
    (HeaderValue.mk [104, 105] false).is_sensitive = false ∧
    (HeaderValue.from_u64 55).is_sensitive = false :=
  ⟨by decide,
   c9_constructors_not_sensitive.2.2.1 [104, 105] ⟨[104, 105], false⟩ (by decide),
   c9_constructors_not_sensitive.2.2.2.2.2.1 55⟩

/-- C1 counterexample: the two-byte static string `[195, 169]` (the
UTF-8 text "é") has every byte `is_valid`, yet `from_static` triggers
the constant-evaluation fault on it, refuting the claim that the fault
fires only when some byte violates `is_valid`. -/
theorem c1_counterexample_from_static_is_stricter :
    ([195, 169].all (fun b => is_valid b)) = true ∧
    utf8Valid [195, 169] = true ∧
    HeaderValue.from_static [195, 169] = none := by
  decide

/-- C1 (amended): `from_static` validates every byte against
`is_visible_ascii` (not `is_valid`): it succeeds, reusing the source
bytes, exactly when every byte is visible ASCII, and triggers the
constant-evaluation fault exactly when some byte is not. -/
theorem c1_amended_from_static_validates_visible_ascii (src : List Nat) :
    ((∀ b ∈ src, is_visible_ascii b = true) →
      HeaderValue.from_static src = some { inner := src, is_sensitive := false }) ∧
    ((∃ b ∈ src, is_visible_ascii b = false) →
      HeaderValue.from_static src = none) := by
  constructor
  · intro h
    have hall : src.all (fun b => is_visible_ascii b) = true := List.all_eq_true.mpr h
    simp [HeaderValue.from_static, hall]
  · rintro ⟨b, hb, hbad⟩
    simp only [HeaderValue.from_static, ite_eq_right_iff]
    intro hall
    rw [List.all_eq_true] at hall
    exact absurd (hall b hb) (by simp [hbad])

/-- C1 witness: a concrete all-visible literal is accepted with its own
bytes. -/
theorem c1_amended_witness :
    HeaderValue.from_static [104, 105] = some { inner := [104, 105], is_sensitive := false } :=
  (c1_amended_from_static_validates_visible_ascii [104, 105]).1 (by decide)

/-- C4 counterexample: the input `[200, 10]` contains a byte in
128–255, yet `from_bytes` rejects it (because of the other byte), so
"for every input containing a byte in 128–255, `from_bytes` succeeds"
is false as stated. -/
theorem c4_counterexample_high_byte_input_can_fail :
    (200 ∈ [200, 10] ∧ 128 ≤ 200 ∧ 200 ≤ 255) ∧
    HeaderValue.from_bytes [200, 10] = none := by
  decide

/-- C4 (amended): `to_str` returns the byte content as text iff every
byte is visible ASCII and fails with `ToStrError` otherwise; whenever
`from_bytes` accepts an input containing a byte in 128–255, `to_str` on
the result fails; and at the boundary: `from_bytes` rejects `\n` (10)
and DEL (127), accepts tab (9), and accepts `[200]` whose `to_str`
fails. -/
theorem c4_amended_to_str_iff_visible_ascii (v : HeaderValue) (src : List Nat) :
    (HeaderValue.to_str v = some v.as_bytes ↔ ∀ b ∈ v.inner, is_visible_ascii b = true) ∧
    (HeaderValue.to_str v = none ↔ ∃ b ∈ v.inner, is_visible_ascii b = false) ∧
    (∀ hv, HeaderValue.from_bytes src = some hv → (∃ b ∈ src, 128 ≤ b ∧ b ≤ 255) →
      HeaderValue.to_str hv = none) ∧
    HeaderValue.from_bytes [10] = none ∧
    HeaderValue.from_bytes [9] = some ⟨[9], false⟩ ∧
    HeaderValue.from_bytes [127] = none ∧
    HeaderValue.from_bytes [200] = some ⟨[200], false⟩ ∧
    HeaderValue.to_str ⟨[200], false⟩ = none := by
  refine ⟨?_, ?_, ?_, by decide, by decide, by decide, by decide, by decide⟩
  · unfold HeaderValue.to_str HeaderValue.as_bytes
    split
    next hall => simpa using List.all_eq_true.mp hall
    next hall =>
      constructor
      · intro h
        exact Option.noConfusion h
      · intro h
        exact absurd (List.all_eq_true.mpr h) hall
  · constructor
    · intro h
      unfold HeaderValue.to_str at h
      split at h
      next => exact Option.noConfusion h
      next hall =>
        have hne : v.inner ≠ [] := fun hnil => hall (by simp [hnil])
        rcases List.exists_mem_of_ne_nil v.inner hne with ⟨b, hb⟩
        by_contra hno
        push_neg at hno
        refine hall (List.all_eq_true.mpr fun x hx => ?_)
        have := hno x hx
        simp only [Bool.not_eq_false] at this ⊢
        exact this
    · rintro ⟨b, hb, hbad⟩
      exact to_str_eq_none_of_mem v b hb hbad
  · rintro hv h ⟨b, hb, h128, _⟩
    rcases try_from_generic_eq src hv h with ⟨rfl, _⟩
    refine to_str_eq_none_of_mem _ b hb ?_
    simp only [is_visible_ascii, Bool.or_eq_false_iff, Bool.and_eq_false_iff,
      decide_eq_false_iff_not, not_le, not_lt, beq_eq_false_iff_ne, ne_eq]
    omega

/-- C4 witness: the amended theorem applied at the concrete inputs
`[200]` (opaque octet: valid but not text) and `[104]` (plain text). -/
theorem c4_amended_witness :
    HeaderValue.to_str ⟨[200], false⟩ = none ∧
    HeaderValue.to_str ⟨[104], false⟩ = some (HeaderValue.mk [104] false).as_bytes :=
  ⟨(c4_amended_to_str_iff_visible_ascii ⟨[104], false⟩ [200]).2.2.1 ⟨[200], false⟩
      (by decide) ⟨200, by decide, by decide, by decide⟩,
   (c4_amended_to_str_iff_visible_ascii ⟨[104], false⟩ [200]).1.mpr (by decide)⟩

/-- C2: for every byte sequence accepted by `Method::from_bytes`,
re-extracting the text view and re-encoding it as bytes reproduces the
input exactly. -/
theorem c2_method_roundtrip (t : List Nat) (m : Method)
    (h : Method.from_bytes t = some m) : m.as_str = t := by
  unfold Method.from_bytes at h
  split at h
  · exact Option.noConfusion h
  · split_ifs at h with h1 h2
    · injection h with h
      subst h
      rw [h1]
      rfl
    · injection h with h
      subst h
      rw [h2]
      rfl
    · exact extension_inline_as_str t m h
  · split_ifs at h with h1 h2
    · injection h with h
      subst h
      rw [h1]
      rfl
    · injection h with h
      subst h
      rw [h2]
      rfl
    · exact extension_inline_as_str t m h
  · split_ifs at h with h1 h2
    · injection h with h
      subst h
      rw [h1]
      rfl
    · injection h with h
      subst h
      rw [h2]
      rfl
    · exact extension_inline_as_str t m h
  · split_ifs at h with h1
    · injection h with h
      subst h
      rw [h1]
      rfl
    · exact extension_inline_as_str t m h
  · split_ifs at h with h1 h2
    · injection h with h
      subst h
      rw [h1]
      rfl
    · injection h with h
      subst h
      rw [h2]
      rfl
    · exact extension_inline_as_str t m h
  · split_ifs at h with h1
    · exact extension_inline_as_str t m h
    · unfold AllocatedExtension.new at h
      cases hw : write_checked t with
      | none =>
        rw [hw] at h
        exact Option.noConfusion h
      | some d =>
        rw [hw] at h
        simp only at h
        injection h with h
        subst h
        show d = t
        exact write_checked_eq t d hw

/-- C2 witness: the round trip at the concrete accepted inputs `GET`
(fast path) and `WOW` (extension path). -/
theorem c2_method_roundtrip_witness :
    Method.as_str ⟨Inner.Get⟩ = strBytes "GET" ∧
    Method.as_str ⟨Inner.ExtensionInline (strBytes "WOW" ++ List.replicate 12 0) 3⟩ =
      strBytes "WOW" :=
  ⟨c2_method_roundtrip (strBytes "GET") ⟨Inner.Get⟩ (by decide),
   c2_method_roundtrip (strBytes "WOW")
     ⟨Inner.ExtensionInline (strBytes "WOW" ++ List.replicate 12 0) 3⟩ (by decide)⟩

/-- C7: `Method::from_bytes` fails exactly on empty input or a byte
outside the `tchar` alphabet; it succeeds exactly when the input is
nonempty and every byte maps to a nonzero entry of the validation
table; and the nonzero entries of the table are exactly the `tchar` bytes. -/
theorem c7_invalid_method_iff (t : List Nat) :
    (Method.from_bytes t = none ↔ t = [] ∨ ∃ b ∈ t, isTchar b = false) ∧
    ((∃ m, Method.from_bytes t = some m) ↔
      (t ≠ [] ∧ ∀ b ∈ t, METHOD_CHARS.getD b 0 ≠ 0)) ∧
    (∀ b, b < 256 → (METHOD_CHARS.getD b 0 ≠ 0 ↔ isTchar b = true)) := by
  have hsome := from_bytes_some_iff t
  refine ⟨?_, ?_, fun b hb => method_chars_tchar_small b hb⟩
  · cases hfb : Method.from_bytes t with
    | none =>
      simp only [eq_self_iff_true, true_iff]
      by_contra hno
      push_neg at hno
      rcases hno with ⟨h1, h2⟩
      rcases hsome.mpr ⟨h1, fun b hb => by simpa using h2 b hb⟩ with ⟨m, hm⟩
      rw [hfb] at hm
      exact Option.noConfusion hm
    | some m =>
      constructor
      · intro hcontra
        exact Option.noConfusion hcontra
      · intro hbad
        rcases hsome.mp ⟨m, hfb⟩ with ⟨hne, hall⟩
        rcases hbad with rfl | ⟨b, hb, hbf⟩
        · exact absurd rfl hne
        · rw [hall b hb] at hbf
          exact Bool.noConfusion hbf
  · rw [hsome]
    constructor
    · rintro ⟨hne, hall⟩
      exact ⟨hne, fun b hb => (method_chars_nonzero_iff b).mpr (hall b hb)⟩
    · rintro ⟨hne, hall⟩
      exact ⟨hne, fun b hb => (method_chars_nonzero_iff b).mp (hall b hb)⟩

/-- C7 witness: the criterion at the concrete accepted input `GET` and
the table fact at the concrete byte 65. -/
theorem c7_invalid_method_iff_witness :
    (∃ m, Method.from_bytes (strBytes "GET") = some m) ∧
    (METHOD_CHARS.getD 65 0 ≠ 0 ↔ isTchar 65 = true) :=
  ⟨(c7_invalid_method_iff (strBytes "GET")).2.1.mpr ⟨by decide, by decide⟩,
   (c7_invalid_method_iff (strBytes "GET")).2.2 65 (by decide)⟩

/-- C5: `StatusCode::from_bytes(src)` succeeds iff `src` is exactly 3
ASCII digit bytes with a nonzero hundreds digit, and on success the
value is the decimal number the digits denote; `from_bytes("099")`
fails and `from_bytes("200")` is the `OK` constant. -/
theorem c5_status_from_bytes (src : List Nat) (hb : ∀ b ∈ src, b < 256) :
    ((∃ s, StatusCode.from_bytes src = some s) ↔
      (src.length = 3 ∧ (∀ b ∈ src, 48 ≤ b ∧ b ≤ 57) ∧ 49 ≤ src.getD 0 0)) ∧
    (∀ s, StatusCode.from_bytes src = some s →
      s.val = (src.getD 0 0 - 48) * 100 + (src.getD 1 0 - 48) * 10 + (src.getD 2 0 - 48)) ∧
    StatusCode.from_bytes (strBytes "099") = none ∧
    StatusCode.from_bytes (strBytes "200") = some StatusCode.OK := by
  refine ⟨?_, ?_, by decide, by decide⟩
  · by_cases h3 : src.length = 3
    · obtain ⟨x, y, z, rfl⟩ := List.length_eq_three.mp h3
      have hx : x < 256 := hb x (by simp)
      have hy : y < 256 := hb y (by simp)
      have hz : z < 256 := hb z (by simp)
      rw [status_from_bytes_cons x y z hx hy hz]
      split_ifs with hcond
      · constructor
        · intro _
          refine ⟨rfl, ?_, ?_⟩
          · intro b hmem
            simp only [List.mem_cons, List.not_mem_nil, or_false] at hmem
            rcases hmem with rfl | rfl | rfl <;> omega
          · simp only [List.getD_cons_zero]
            omega
        · intro _
          exact ⟨_, rfl⟩
      · constructor
        · rintro ⟨s, hs⟩
          exact hs.elim
        · rintro ⟨_, hall, h49⟩
          have h1 := hall x (by simp)
          have h2 := hall y (by simp)
          have h3w := hall z (by simp)
          simp only [List.getD_cons_zero] at h49
          exact absurd (by omega : 49 ≤ x ∧ x ≤ 57 ∧ 48 ≤ y ∧ y ≤ 57 ∧ 48 ≤ z ∧ z ≤ 57)
            hcond
    · rw [status_from_bytes_len_ne src h3]
      constructor
      · rintro ⟨s, hs⟩
        exact Option.noConfusion hs
      · rintro ⟨hcontra, _, _⟩
        exact absurd hcontra h3
  · intro s hs
    by_cases h3 : src.length = 3
    · obtain ⟨x, y, z, rfl⟩ := List.length_eq_three.mp h3
      rw [status_from_bytes_cons x y z (hb x (by simp)) (hb y (by simp)) (hb z (by simp))] at hs
      split_ifs at hs with hcond
      injection hs with hs
      subst hs
      simp only [List.getD_cons_zero, List.getD_cons_succ]
    · rw [status_from_bytes_len_ne src h3] at hs
      exact Option.noConfusion hs

/-- C5 witness: the criterion and the value equation at the concrete
input `"200"`. -/
theorem c5_status_from_bytes_witness :
    (∃ s, StatusCode.from_bytes (strBytes "200") = some s) ∧
    StatusCode.OK.val =
      ((strBytes "200").getD 0 0 - 48) * 100 + ((strBytes "200").getD 1 0 - 48) * 10 +
        ((strBytes "200").getD 2 0 - 48) :=
  ⟨(c5_status_from_bytes (strBytes "200") (by decide)).1.mpr
      ⟨by decide, by decide, by decide⟩,
   (c5_status_from_bytes (strBytes "200") (by decide)).2.1 StatusCode.OK (by decide)⟩

/-- C6: for every `StatusCode` in the constructor-established range
`[100, 999]`, `as_str` returns exactly the 3-character decimal
rendering of `as_u16`, obtained by indexing the precomputed 2700-byte
digit table at offset `(as_u16 − 100) × 3`, and the lookup is in
bounds. -/
theorem c6_status_as_str (s : StatusCode) (h1 : 100 ≤ s.val) (h2 : s.val ≤ 999) :
    StatusCode.as_str s = digits3 (StatusCode.as_u16 s) ∧
    (StatusCode.as_u16 s - 100) * 3 + 3 ≤ CODE_DIGITS.data.length ∧
    CODE_DIGITS.data.length = 2700 := by
  refine ⟨?_, ?_, code_digits_data_length⟩
  · unfold StatusCode.as_str StatusCode.as_u16
    rw [code_digits_data, genFrom_drop_take 900 100 (s.val - 100) (by omega)]
    congr 1
    omega
  · rw [code_digits_data_length]
    unfold StatusCode.as_u16
    omega

/-- C6 witness: the rendering and the bound at the concrete code 200. -/
theorem c6_status_as_str_witness :
    StatusCode.as_str ⟨200⟩ = digits3 (StatusCode.as_u16 ⟨200⟩) ∧
    (StatusCode.as_u16 ⟨200⟩ - 100) * 3 + 3 ≤ CODE_DIGITS.data.length ∧
    CODE_DIGITS.data.length = 2700 :=
  c6_status_as_str ⟨200⟩ (by decide) (by decide)

/-- C8: every `ByteStr` reachable through the public constructors
contains only valid UTF-8 bytes, and the string view (`deref`) is the
unchanged buffer, so it is always well-defined without re-validation. -/
theorem c8_bytestr_utf8_invariant (b : ByteStr) (h : ByteStr.Reachable b) :
    utf8Valid b.bytes = true ∧ b.deref = b.bytes ∧ utf8Valid b.deref = true := by
  have hb : utf8Valid b.bytes = true := by
    cases h with
    | new => rfl
    | from_static s hs => exact hs
    | fromString s hs => exact hs
    | fromStrRef s hs => exact hs
    | from_utf8 src bs hsrc =>
      unfold ByteStr.from_utf8 at hsrc
      split at hsrc
      next hv =>
        injection hsrc with h2
        subst h2
        exact hv
      next => exact Option.noConfusion hsrc
  exact ⟨hb, rfl, hb⟩

/-- C8 witness: the invariant at the concrete constructor `new`. -/
theorem c8_bytestr_utf8_invariant_witness :
    utf8Valid ByteStr.new.bytes = true ∧
    ByteStr.new.deref = ByteStr.new.bytes ∧
    utf8Valid ByteStr.new.deref = true :=
  c8_bytestr_utf8_invariant ByteStr.new ByteStr.Reachable.new

end Http
